import Mathlib

/-!
Shallow embedding of the Value-at-Risk notebook
(`course-materials/ValueAtRisk.ipynb`).

The notebook's pipeline is:

  returns        = data.pct_change()
  cov_matrix     = returns.cov()
  mean_returns   = returns.mean()
  port_mean      = mean_returns.dot(weights)
  port_stdev     = np.sqrt(weights.T.dot(cov_matrix).dot(weights))
  mean_investment   = (1 + port_mean) * initial_investment
  investment_stdev  = initial_investment * port_stdev
  percent_point  = norm.ppf(confidence, mean_investment, investment_stdev)
  value_at_risk  = initial_investment - percent_point
  value_at_risks = value_at_risk * np.sqrt(range(1, 31))

Prices and returns are embedded as exact rationals; a pandas `NaN` cell is
embedded as `none`.  The results of the floating-point library calls
`np.sqrt` and `scipy.stats.norm.ppf` — which can produce `nan` and `±inf` —
are embedded as `Option ℝ` and as the four-way type `NpVal`.  The standard
normal quantile function used internally by `norm.ppf` on (0,1) has no
closed form; it is carried as an abstract parameter `stdQ`.
-/

/-- Embeds `pandas.Series.pct_change` applied to one price column, without
the leading `NaN`: entry `t-1` is `price[t]/price[t-1] - 1`. -/
def rawReturns (prices : List ℚ) : List ℚ :=
  List.zipWith (fun prev cur => cur / prev - 1) prices prices.tail

/-- Embeds `data.pct_change()` on one column exactly as pandas returns it:
the first row is `NaN` (embedded `none`), and row `t` (for `t ≥ 1`) is
`price[t]/price[t-1] - 1`.  An empty column stays empty. -/
def pct_change (prices : List ℚ) : List (Option ℚ) :=
  match prices with
  | [] => []
  | p :: rest => none :: (rawReturns (p :: rest)).map some

/-- The return series with the undefined first observation dropped: the
defined (non-`NaN`) cells of `pct_change`.  This is the `ReturnTable`
representation used by the spec; downstream pandas reductions skip the
`NaN` cell, which is what makes this representation adequate. -/
def buildReturns (prices : List ℚ) : List ℚ :=
  (pct_change prices).filterMap id

/-- Embeds `pandas.Series.mean` on a `NaN`-free column. -/
def mean (xs : List ℚ) : ℚ := xs.sum / xs.length

/-- Embeds one entry of `returns.cov()` on `NaN`-free columns: the sample
covariance with denominator `n - 1` (pandas' default `ddof = 1`). -/
def sampleCov (xs ys : List ℚ) : ℚ :=
  (List.zipWith (fun x y => (x - mean xs) * (y - mean ys)) xs ys).sum /
    ((xs.length : ℚ) - 1)

/-- The sample variance of a column with denominator `n - 1`. -/
def sampleVar (xs : List ℚ) : ℚ :=
  (xs.map (fun x => (x - mean xs) ^ 2)).sum / ((xs.length : ℚ) - 1)

/-- Embeds `returns.mean()` across a table of `NaN`-free columns (one list
per asset). -/
def mean_returns (R : List (List ℚ)) : List ℚ := R.map mean

/-- Embeds `cov_matrix = returns.cov()` across a table of `NaN`-free
columns: the square matrix of pairwise sample covariances, as a list of
rows. -/
def cov_matrix (R : List (List ℚ)) : List (List ℚ) :=
  R.map (fun x => R.map (fun y => sampleCov x y))

/-- Dot product of two vectors, as `numpy.dot` / `pandas.Series.dot`
compute it. -/
def dotList (xs ys : List ℚ) : ℚ :=
  (List.zipWith (fun a b => a * b) xs ys).sum

/-- Embeds `port_mean = mean_returns.dot(weights)`. -/
def port_mean (R : List (List ℚ)) (w : List ℚ) : ℚ :=
  dotList (mean_returns R) w

/-- Embeds the scalar `weights.T.dot(M).dot(weights)`: the quadratic form
`w · M · w`. -/
def quadForm (w : List ℚ) (M : List (List ℚ)) : ℚ :=
  dotList w (M.map (fun row => dotList row w))

/-- Embeds `np.sqrt` on a scalar: `NaN` (embedded `none`) on a negative
argument, otherwise the real square root.  `np.sqrt` performs no clamping
of negative inputs. -/
noncomputable def npSqrt (q : ℚ) : Option ℝ :=
  if q < 0 then none else some (Real.sqrt q)

/-- Embeds `np.sqrt(weights.T.dot(M).dot(weights))` for an arbitrary
matrix argument. -/
noncomputable def port_stdev_of (w : List ℚ) (M : List (List ℚ)) : Option ℝ :=
  npSqrt (quadForm w M)

/-- Embeds `port_stdev = np.sqrt(weights.T.dot(cov_matrix).dot(weights))`. -/
noncomputable def port_stdev (R : List (List ℚ)) (w : List ℚ) : Option ℝ :=
  port_stdev_of w (cov_matrix R)

/-- The Portfolio Statistics Aggregator of the spec: the pair
`(port_mean, port_stdev)` computed by the notebook from a return table and
weights. -/
noncomputable def aggregate (R : List (List ℚ)) (w : List ℚ) : ℚ × Option ℝ :=
  (port_mean R w, port_stdev R w)

/-- Embeds `returns = data.pct_change()` across the whole price table,
keeping the `NaN` first row exactly as the code does. -/
def returnsNaN (data : List (List ℚ)) : List (List (Option ℚ)) :=
  data.map pct_change

/-- The spec's `buildReturns` applied to the whole price table: the
`NaN`-dropping representation. -/
def returnTable (data : List (List ℚ)) : List (List ℚ) :=
  data.map buildReturns

/-- Embeds `pandas.Series.mean` with its default `skipna = True`: the mean
of the defined cells. -/
def nanMean (xs : List (Option ℚ)) : ℚ :=
  mean (xs.filterMap id)

/-- Keeps a row only when both of its cells are defined (non-`NaN`). -/
def bothSome (p : Option ℚ × Option ℚ) : Option (ℚ × ℚ) :=
  match p with
  | (some a, some b) => some (a, b)
  | _ => none

/-- The rows at which both columns are defined (non-`NaN`), paired up:
pandas covariance uses exactly these pairwise-complete observations. -/
def dropna2 (xs ys : List (Option ℚ)) : List (ℚ × ℚ) :=
  (List.zip xs ys).filterMap bothSome

/-- Embeds one entry of `returns.cov()` on columns that may hold `NaN`
cells: the sample covariance (denominator `n - 1`) over the
pairwise-complete observations, demeaned within that subsample. -/
def nanCov (xs ys : List (Option ℚ)) : ℚ :=
  sampleCov ((dropna2 xs ys).map Prod.fst) ((dropna2 xs ys).map Prod.snd)

/-- Embeds `returns.mean()` on the `NaN`-keeping representation. -/
def mean_returnsNaN (RN : List (List (Option ℚ))) : List ℚ :=
  RN.map nanMean

/-- Embeds `returns.cov()` on the `NaN`-keeping representation. -/
def cov_matrixNaN (RN : List (List (Option ℚ))) : List (List ℚ) :=
  RN.map (fun x => RN.map (fun y => nanCov x y))

/-- Embeds `port_mean` computed from the `NaN`-keeping representation,
exactly as the notebook runs it. -/
def port_meanNaN (RN : List (List (Option ℚ))) (w : List ℚ) : ℚ :=
  dotList (mean_returnsNaN RN) w

/-- Embeds `port_stdev` computed from the `NaN`-keeping representation. -/
noncomputable def port_stdevNaN (RN : List (List (Option ℚ))) (w : List ℚ) : Option ℝ :=
  npSqrt (quadForm w (cov_matrixNaN RN))

/-- The `(port_mean, port_stdev)` pair of the notebook: the spec's
`PortfolioStats`, as consumed by the VaR estimator. -/
structure PortfolioStats where
  mean : ℝ
  stdDev : ℝ

/-- The spec's `RiskParameters` consumed by `estimateVaR`: the notebook's
`confidence` and `initial_investment` variables. -/
structure RiskParameters where
  confidenceLevel : ℝ
  initialInvestment : ℝ

/-- The IEEE-style result of a numpy/scipy scalar computation: a finite
value, an infinity of either sign, or `NaN`. -/
inductive NpVal where
  | val (x : ℝ)
  | posInf
  | negInf
  | nan

/-- Embeds `mean_investment = (1 + port_mean) * initial_investment`. -/
def mean_investment (stats : PortfolioStats) (params : RiskParameters) : ℝ :=
  (1 + stats.mean) * params.initialInvestment

/-- Embeds `investment_stdev = initial_investment * port_stdev`. -/
def investment_stdev (stats : PortfolioStats) (params : RiskParameters) : ℝ :=
  params.initialInvestment * stats.stdDev

/-- Embeds `scipy.stats.norm.ppf(q, loc, scale)`, parametrized by the
standard normal quantile `stdQ` on (0,1): scipy returns `nan` when
`scale ≤ 0` (invalid distribution parameters) or when `q` is outside
`[0,1]`; `-inf` at `q = 0`; `+inf` at `q = 1`; and otherwise
`loc + scale * Φ⁻¹(q)`. -/
noncomputable def norm_ppf (stdQ : ℝ → ℝ) (q loc scale : ℝ) : NpVal :=
  if scale ≤ 0 then NpVal.nan
  else if q < 0 ∨ 1 < q then NpVal.nan
  else if q = 0 then NpVal.negInf
  else if q = 1 then NpVal.posInf
  else NpVal.val (loc + scale * stdQ q)

/-- Subtraction `a - b` where `b` came from a numpy/scipy call, following
IEEE semantics: a finite value minus `±inf` is `∓inf`, and `NaN`
propagates. -/
def npSub (a : ℝ) : NpVal → NpVal
  | NpVal.val x => NpVal.val (a - x)
  | NpVal.posInf => NpVal.negInf
  | NpVal.negInf => NpVal.posInf
  | NpVal.nan => NpVal.nan

/-- Embeds the notebook's VaR computation:
`percent_point = norm.ppf(confidence, mean_investment, investment_stdev)`
followed by `value_at_risk = initial_investment - percent_point`.  There
is no validation of `confidence` and no special-casing of a zero standard
deviation in the code: everything is delegated to `norm.ppf`. -/
noncomputable def estimateVaR (stdQ : ℝ → ℝ) (stats : PortfolioStats)
    (params : RiskParameters) : NpVal :=
  npSub params.initialInvestment
    (norm_ppf stdQ params.confidenceLevel (mean_investment stats params)
      (investment_stdev stats params))

/-- Embeds `value_at_risks = value_at_risk * np.sqrt(range(1, n+1))` (the
notebook hardcodes `n = 30`): the element for day `d` is
`value_at_risk * sqrt(d)`. -/
noncomputable def scaleToHorizon (v : ℝ) (n : ℕ) : List ℝ :=
  (List.range' 1 n).map (fun d : ℕ => v * Real.sqrt (d : ℝ))

/-! Helper lemmas about the embedded list operations. -/

theorem getD_of_lt {α : Type} (l : List α) (i : ℕ) (h : i < l.length) (d : α) :
    l.getD i d = l.get ⟨i, h⟩ := by
  rw [List.getD_eq_getElem?_getD, List.getElem?_eq_getElem h, Option.getD_some]
  rfl

theorem buildReturns_eq_raw (ps : List ℚ) : buildReturns ps = rawReturns ps := by
  cases ps with
  | nil => rfl
  | cons p rest =>
    simp [buildReturns, pct_change, List.filterMap_cons, List.filterMap_map,
      Function.comp, List.filterMap_some]

theorem rawReturns_length (ps : List ℚ) :
    (rawReturns ps).length = ps.length - 1 := by
  simp [rawReturns]

theorem rawReturns_getD (ps : List ℚ) (t : ℕ) (h1 : 1 ≤ t) (h2 : t < ps.length) :
    (rawReturns ps).getD (t - 1) 0 = ps.getD t 0 / ps.getD (t - 1) 0 - 1 := by
  obtain ⟨u, rfl⟩ : ∃ u, t = u + 1 := ⟨t - 1, by omega⟩
  have hu : u + 1 - 1 = u := by omega
  rw [hu]
  have hlen : u < (rawReturns ps).length := by rw [rawReturns_length]; omega
  have hu2 : u < ps.length := by omega
  rw [getD_of_lt _ _ hlen, getD_of_lt _ _ h2, getD_of_lt _ _ hu2]
  simp only [rawReturns, List.get_eq_getElem, List.getElem_zipWith, List.getElem_tail]

/-- Claim C2: on a price table column of length `L ≥ 2` holding only
positive prices, the return series with the undefined first observation
dropped has length exactly `L - 1`, and its entry `t - 1` is
`price[t]/price[t-1] - 1` for every `t` from `1` to `L - 1`. -/
theorem buildReturns_length_and_entries (ps : List ℚ)
    (h2 : 2 ≤ ps.length) (hpos : ∀ p ∈ ps, 0 < p) :
    (buildReturns ps).length = ps.length - 1 ∧
      ∀ t, 1 ≤ t → t < ps.length →
        (buildReturns ps).getD (t - 1) 0 = ps.getD t 0 / ps.getD (t - 1) 0 - 1 := by
  rw [buildReturns_eq_raw]
  exact ⟨rawReturns_length ps, fun t h1 ht => rawReturns_getD ps t h1 ht⟩

/-- Witness for C2 at the concrete column `[1, 2]`. -/
theorem buildReturns_length_and_entries_witness :
    2 ≤ ([1, 2] : List ℚ).length ∧ (∀ p ∈ ([1, 2] : List ℚ), 0 < p) ∧
      ((buildReturns [1, 2]).length = ([1, 2] : List ℚ).length - 1 ∧
        ∀ t, 1 ≤ t → t < ([1, 2] : List ℚ).length →
          (buildReturns [1, 2]).getD (t - 1) 0 =
            ([1, 2] : List ℚ).getD t 0 / ([1, 2] : List ℚ).getD (t - 1) 0 - 1) :=
  ⟨by decide, by decide,
    buildReturns_length_and_entries [1, 2] (by decide) (by decide)⟩

/-- Claim C4: `value_at_risk * np.sqrt(range(1, n+1))` produces exactly
`n` values, and the value at index `k` is `oneStepVaR * sqrt(k+1)`. -/
theorem scaleToHorizon_spec (v : ℝ) (n : ℕ) (hn : 1 ≤ n) :
    (scaleToHorizon v n).length = n ∧
      ∀ k, k < n → (scaleToHorizon v n).getD k 0 = v * Real.sqrt (k + 1) := by
  constructor
  · rw [scaleToHorizon, List.length_map, List.length_range']
  · intro k hk
    have hk' : k < (scaleToHorizon v n).length := by
      rw [scaleToHorizon, List.length_map, List.length_range']; exact hk
    rw [getD_of_lt _ _ hk']
    simp only [scaleToHorizon, List.get_eq_getElem, List.getElem_map,
      List.getElem_range']
    have hcast : ((1 + 1 * k : ℕ) : ℝ) = (k : ℝ) + 1 := by push_cast; ring
    rw [hcast]

/-- Witness for C4 at `v = 2`, `n = 3`. -/
theorem scaleToHorizon_spec_witness :
    1 ≤ 3 ∧ ((scaleToHorizon 2 3).length = 3 ∧
      ∀ k, k < 3 → (scaleToHorizon 2 3).getD k 0 = 2 * Real.sqrt (k + 1)) :=
  ⟨by decide, scaleToHorizon_spec 2 3 (by decide)⟩

/-- Counterexample for claim C8: `pct_change` performs no input
validation.  On the column `[-1, 2]`, which holds a non-positive price,
it returns the ordinary numeric table `[NaN, 2/(-1) - 1] = [NaN, -3]`
instead of failing with `InvalidPriceError`; on the too-short column
`[5]` it returns the partial table `[NaN]` instead of failing with
`InsufficientDataError`. -/
theorem pct_change_no_validation_cex :
    pct_change [(-1 : ℚ), 2] = [none, some (-3)] ∧
      pct_change [(5 : ℚ)] = [none] := by
  constructor
  · norm_num [pct_change, rawReturns]
  · norm_num [pct_change, rawReturns]

/-- Claim C8 amended: the code's return-series builder `pct_change` has no
error path at all.  For every price column it returns a table of exactly
the same length (so a length-1 column yields a partial, all-`NaN` result
rather than an error), and for every nonzero-priced nonempty column the
first cell is the undefined (`NaN`) observation; non-positive prices are
consumed without complaint. -/
theorem pct_change_total (ps : List ℚ) (hnz : ∀ p ∈ ps, p ≠ 0) :
    (pct_change ps).length = ps.length ∧
      (ps ≠ [] → (pct_change ps).head? = some none) := by
  constructor
  · cases ps with
    | nil => rfl
    | cons p rest => simp [pct_change, rawReturns]
  · intro hne
    cases ps with
    | nil => exact absurd rfl hne
    | cons p rest => rfl

/-- Witness for the amended C8 at the column `[-1, 2]`. -/
theorem pct_change_total_witness :
    (∀ p ∈ ([-1, 2] : List ℚ), p ≠ 0) ∧
      ((pct_change [-1, 2]).length = ([-1, 2] : List ℚ).length ∧
        (([-1, 2] : List ℚ) ≠ [] → (pct_change [-1, 2]).head? = some none)) :=
  ⟨by decide, pct_change_total [-1, 2] (by decide)⟩

/-- Claim C1: for a positive investment, a confidence level strictly
inside (0,1), and a positive portfolio standard deviation (so that the
Normal distribution in question exists), `estimateVaR` returns exactly
`initialInvestment` minus the `confidenceLevel`-quantile
`(1+m)·I + (s·I)·Φ⁻¹(c)` of the Normal distribution with mean `(1+m)·I`
and standard deviation `s·I`. -/
theorem estimateVaR_eq_normal_quantile (stdQ : ℝ → ℝ) (stats : PortfolioStats)
    (params : RiskParameters)
    (hI : 0 < params.initialInvestment) (hs : 0 < stats.stdDev)
    (hc0 : 0 < params.confidenceLevel) (hc1 : params.confidenceLevel < 1) :
    estimateVaR stdQ stats params =
      NpVal.val (params.initialInvestment -
        ((1 + stats.mean) * params.initialInvestment +
          stats.stdDev * params.initialInvestment * stdQ params.confidenceLevel)) := by
  have hscale : 0 < investment_stdev stats params := mul_pos hI hs
  rw [estimateVaR, norm_ppf, if_neg (by linarith), if_neg (by push_neg; constructor <;> linarith),
    if_neg (by linarith), if_neg (by linarith), npSub]
  rw [mean_investment, investment_stdev]
  ring_nf

/-- Witness for C1 with `stdQ = fun _ => 0`, mean 0, stdDev 1,
confidence 1/2, investment 1000. -/
theorem estimateVaR_eq_normal_quantile_witness :
    0 < (PortfolioStats.mk 0 1).stdDev ∧
      estimateVaR (fun _ => 0) (PortfolioStats.mk 0 1) (RiskParameters.mk (1/2) 1000) =
        NpVal.val ((RiskParameters.mk (1/2) 1000).initialInvestment -
          ((1 + (PortfolioStats.mk 0 1).mean) * (RiskParameters.mk (1/2) 1000).initialInvestment +
            (PortfolioStats.mk 0 1).stdDev * (RiskParameters.mk (1/2) 1000).initialInvestment *
              (fun _ : ℝ => (0 : ℝ)) (RiskParameters.mk (1/2) 1000).confidenceLevel)) :=
  ⟨by norm_num, estimateVaR_eq_normal_quantile (fun _ => 0) (PortfolioStats.mk 0 1)
    (RiskParameters.mk (1/2) 1000) (by norm_num) (by norm_num) (by norm_num) (by norm_num)⟩

/-- Counterexample for claim C5: with portfolio mean 0, standard
deviation 0, confidence level 1/2 and investment 1000, the claimed result
is `1000 - (1+0)*1000 = 0`; but the code delegates unconditionally to
`norm.ppf`, which rejects `scale = 0` and returns `NaN`, so
`value_at_risk` is `NaN`, not 0. -/
theorem estimateVaR_zero_stdev_cex :
    estimateVaR (fun _ => 0) (PortfolioStats.mk 0 0) (RiskParameters.mk (1/2) 1000) =
        NpVal.nan ∧
      NpVal.nan ≠ NpVal.val (1000 - (1 + 0) * 1000) := by
  constructor
  · rw [estimateVaR, norm_ppf, if_pos (by norm_num [investment_stdev])]
    rfl
  · intro h
    exact NpVal.noConfusion h

/-- Claim C5 amended: `estimateVaR` contains no special case for a zero
standard deviation.  Whenever `stdDev * initialInvestment = 0` it
delegates to `norm.ppf` with `scale = 0`, which scipy treats as invalid
distribution parameters and answers `NaN`; the final subtraction
propagates the `NaN`, so the result is `NaN` rather than
`initialInvestment - meanValue`. -/
theorem estimateVaR_nan_of_zero_stdev (stdQ : ℝ → ℝ) (stats : PortfolioStats)
    (params : RiskParameters)
    (h : stats.stdDev * params.initialInvestment = 0) :
    estimateVaR stdQ stats params = NpVal.nan := by
  have hscale : investment_stdev stats params = 0 := by
    rw [investment_stdev]; linarith [h, mul_comm stats.stdDev params.initialInvestment]
  rw [estimateVaR, norm_ppf, if_pos (le_of_eq hscale)]
  rfl

/-- Witness for the amended C5 at stdDev 0, investment 1000. -/
theorem estimateVaR_nan_of_zero_stdev_witness :
    (PortfolioStats.mk 0 0).stdDev * (RiskParameters.mk (1/2) 1000).initialInvestment = 0 ∧
      estimateVaR (fun _ => 0) (PortfolioStats.mk 0 0) (RiskParameters.mk (1/2) 1000) =
        NpVal.nan :=
  ⟨by norm_num, estimateVaR_nan_of_zero_stdev (fun _ => 0) (PortfolioStats.mk 0 0)
    (RiskParameters.mk (1/2) 1000) (by norm_num)⟩

/-- Counterexample for claim C7: at confidence level exactly 0 (mean 0,
stdDev 1, investment 1000) no error of any kind occurs: `norm.ppf`
returns `-inf` and `value_at_risk` comes out as `+inf`; at confidence
level exactly 1 it comes out as `-inf`.  The infinite quantile is
returned, not rejected. -/
theorem estimateVaR_boundary_cex :
    norm_ppf (fun _ => 0) 0 1000 1000 = NpVal.negInf ∧
      estimateVaR (fun _ => 0) (PortfolioStats.mk 0 1) (RiskParameters.mk 0 1000) =
        NpVal.posInf ∧
      estimateVaR (fun _ => 0) (PortfolioStats.mk 0 1) (RiskParameters.mk 1 1000) =
        NpVal.negInf := by
  refine ⟨?_, ?_, ?_⟩
  · rw [norm_ppf, if_neg (by norm_num), if_neg (by norm_num), if_pos rfl]
  · rw [estimateVaR, norm_ppf, if_neg (by norm_num [investment_stdev]),
      if_neg (by norm_num), if_pos rfl]
    rfl
  · rw [estimateVaR, norm_ppf, if_neg (by norm_num [investment_stdev]),
      if_neg (by norm_num), if_neg (by norm_num), if_pos rfl]
    rfl

/-- Claim C7 amended: `estimateVaR` performs no validation of the
confidence level.  With a positive `scale`, a confidence level of exactly
0 makes `norm.ppf` return `-inf` so the VaR comes out `+inf`; exactly 1
yields `+inf` so the VaR comes out `-inf`; and a level outside `[0,1]`
yields `NaN`.  No `InvalidParameterError` exists in the code. -/
theorem estimateVaR_boundary_behavior (stdQ : ℝ → ℝ) (stats : PortfolioStats)
    (params : RiskParameters) (hscale : 0 < investment_stdev stats params) :
    (params.confidenceLevel = 0 → estimateVaR stdQ stats params = NpVal.posInf) ∧
      (params.confidenceLevel = 1 → estimateVaR stdQ stats params = NpVal.negInf) ∧
      (params.confidenceLevel < 0 ∨ 1 < params.confidenceLevel →
        estimateVaR stdQ stats params = NpVal.nan) := by
  refine ⟨?_, ?_, ?_⟩
  · intro h0
    rw [estimateVaR, norm_ppf, if_neg (by linarith), if_neg (by rw [h0]; norm_num),
      if_pos h0]
    rfl
  · intro h1
    rw [estimateVaR, norm_ppf, if_neg (by linarith), if_neg (by rw [h1]; norm_num),
      if_neg (by rw [h1]; norm_num), if_pos h1]
    rfl
  · intro hout
    rw [estimateVaR, norm_ppf, if_neg (by linarith), if_pos hout]
    rfl

/-- Witness for the amended C7 at stdDev 1, investment 1000,
confidence 0. -/
theorem estimateVaR_boundary_behavior_witness :
    0 < investment_stdev (PortfolioStats.mk 0 1) (RiskParameters.mk 0 1000) ∧
      (((RiskParameters.mk (0:ℝ) 1000).confidenceLevel = 0 →
          estimateVaR (fun _ => 0) (PortfolioStats.mk 0 1) (RiskParameters.mk 0 1000) =
            NpVal.posInf) ∧
        ((RiskParameters.mk (0:ℝ) 1000).confidenceLevel = 1 →
          estimateVaR (fun _ => 0) (PortfolioStats.mk 0 1) (RiskParameters.mk 0 1000) =
            NpVal.negInf) ∧
        ((RiskParameters.mk (0:ℝ) 1000).confidenceLevel < 0 ∨
            1 < (RiskParameters.mk (0:ℝ) 1000).confidenceLevel →
          estimateVaR (fun _ => 0) (PortfolioStats.mk 0 1) (RiskParameters.mk 0 1000) =
            NpVal.nan)) :=
  ⟨by norm_num [investment_stdev], estimateVaR_boundary_behavior (fun _ => 0)
    (PortfolioStats.mk 0 1) (RiskParameters.mk 0 1000)
    (by norm_num [investment_stdev])⟩

/-- Counterexample for claim C6: `np.sqrt` receives the raw quadratic
form with no clamping.  With weights `[1]` and matrix `[[-1]]` the
quadratic form is `-1`, and the portfolio standard deviation step returns
`NaN` (embedded `none`), not 0. -/
theorem port_stdev_no_clamp_cex :
    port_stdev_of [1] [[-1]] = none ∧ (none : Option ℝ) ≠ some (0 : ℝ) := by
  constructor
  · rw [port_stdev_of, npSqrt, if_pos]
    norm_num [quadForm, dotList]
  · intro h
    exact Option.noConfusion h

/-! Finset-sum characterizations of the list computations, used for the
statistics claims. -/

theorem sum_eq_sum_getD (l : List ℚ) :
    l.sum = ∑ i ∈ Finset.range l.length, l.getD i 0 := by
  induction l with
  | nil => simp
  | cons a l ih =>
    rw [List.sum_cons, List.length_cons, Finset.sum_range_succ']
    simp only [List.getD_cons_succ, List.getD_cons_zero]
    rw [← ih]
    ring

theorem dotList_eq_sum (xs ys : List ℚ) (h : xs.length = ys.length) :
    dotList xs ys = ∑ i ∈ Finset.range xs.length, xs.getD i 0 * ys.getD i 0 := by
  rw [dotList, sum_eq_sum_getD]
  have hlen : (List.zipWith (fun a b => a * b) xs ys).length = xs.length := by
    simp [List.length_zipWith, h]
  rw [hlen]
  apply Finset.sum_congr rfl
  intro i hi
  have hix : i < xs.length := Finset.mem_range.mp hi
  have hiz : i < (List.zipWith (fun a b => a * b) xs ys).length := by
    rw [hlen]; exact hix
  have hiy : i < ys.length := by omega
  rw [getD_of_lt _ _ hiz, getD_of_lt _ _ hix, getD_of_lt _ _ hiy]
  simp [List.get_eq_getElem, List.getElem_zipWith]

theorem getD_map_of_lt {α β : Type} (f : α → β) (l : List α) (i : ℕ)
    (h : i < l.length) (d : α) (d2 : β) : (l.map f).getD i d2 = f (l.getD i d) := by
  have hm : i < (l.map f).length := by simp [h]
  rw [getD_of_lt _ _ hm, getD_of_lt _ _ h]
  simp

/-- The demeaned observations `x - mean xs` of a column, the building
block of the sample covariance. -/
def demean (xs : List ℚ) : List ℚ := xs.map (fun x => x - mean xs)

theorem sampleCov_eq_dot (xs ys : List ℚ) :
    sampleCov xs ys = dotList (demean xs) (demean ys) / ((xs.length : ℚ) - 1) := by
  rw [sampleCov, dotList, demean, demean, List.zipWith_map]

theorem sampleCov_comm (xs ys : List ℚ) (h : xs.length = ys.length) :
    sampleCov xs ys = sampleCov ys xs := by
  rw [sampleCov_eq_dot, sampleCov_eq_dot, h]
  congr 1
  rw [dotList, dotList, List.zipWith_comm_of_comm]
  exact mul_comm

theorem sampleCov_self (xs : List ℚ) : sampleCov xs xs = sampleVar xs := by
  rw [sampleCov, sampleVar]
  congr 1
  rw [List.zipWith_same]
  congr 1
  apply List.map_congr_left
  intro x _
  ring

theorem sampleCov_eq_sum (xs ys : List ℚ) (L : ℕ) (hx : xs.length = L)
    (hy : ys.length = L) :
    sampleCov xs ys = (∑ t ∈ Finset.range L,
        (xs.getD t 0 - mean xs) * (ys.getD t 0 - mean ys)) / ((L : ℚ) - 1) := by
  rw [sampleCov_eq_dot, hx]
  congr 1
  rw [dotList_eq_sum _ _ (by simp [demean, hx, hy])]
  rw [show (demean xs).length = L by simp [demean, hx]]
  apply Finset.sum_congr rfl
  intro t ht
  have htL := Finset.mem_range.mp ht
  rw [demean, getD_map_of_lt _ _ _ (by omega : t < xs.length) 0,
    demean, getD_map_of_lt _ _ _ (by omega : t < ys.length) 0]

theorem quadForm_eq_sum (w : List ℚ) (M : List (List ℚ)) (hw : w.length = M.length)
    (hrow : ∀ row ∈ M, row.length = w.length) :
    quadForm w M = ∑ i ∈ Finset.range w.length, ∑ j ∈ Finset.range w.length,
      w.getD i 0 * ((M.getD i []).getD j 0 * w.getD j 0) := by
  rw [quadForm, dotList_eq_sum _ _ (by simp [hw])]
  apply Finset.sum_congr rfl
  intro i hi
  have hiw : i < w.length := Finset.mem_range.mp hi
  have hiM : i < M.length := by omega
  rw [getD_map_of_lt _ _ _ hiM []]
  have hmem : M.getD i [] ∈ M := by
    rw [getD_of_lt _ _ hiM]
    exact M.get_mem i hiM
  have hrowi : (M.getD i []).length = w.length := hrow _ hmem
  rw [dotList_eq_sum _ _ hrowi, hrowi, Finset.mul_sum]

theorem quadForm_cov_eq_sum (R : List (List ℚ)) (w : List ℚ)
    (hw : w.length = R.length) :
    quadForm w (cov_matrix R) = ∑ i ∈ Finset.range R.length,
      ∑ j ∈ Finset.range R.length,
        w.getD i 0 * (sampleCov (R.getD i []) (R.getD j []) * w.getD j 0) := by
  have hlen : (cov_matrix R).length = R.length := by simp [cov_matrix]
  have hrow : ∀ row ∈ cov_matrix R, row.length = w.length := by
    intro row hr
    rw [cov_matrix] at hr
    obtain ⟨x, _, rfl⟩ := List.mem_map.mp hr
    simp [hw]
  rw [quadForm_eq_sum w (cov_matrix R) (by rw [hlen, hw]) hrow, hw]
  apply Finset.sum_congr rfl
  intro i hi
  apply Finset.sum_congr rfl
  intro j hj
  have hiR : i < R.length := Finset.mem_range.mp hi
  have hjR : j < R.length := Finset.mem_range.mp hj
  congr 2
  rw [cov_matrix, getD_map_of_lt _ _ _ hiR [], getD_map_of_lt _ _ _ hjR []]

/-- Helper for the positivity proof: the weighted demeaned observation
`wᵢ * (rᵢₜ - mean rᵢ)`. -/
def wdm (w : List ℚ) (R : List (List ℚ)) (i t : ℕ) : ℚ :=
  w.getD i 0 * (demean (R.getD i [])).getD t 0

/-- The quadratic form of any weights vector over the sample covariance
matrix of a rectangular return table is non-negative: in exact arithmetic
the matrix is positive semi-definite. -/
theorem quadForm_cov_nonneg (R : List (List ℚ)) (w : List ℚ) (L : ℕ)
    (hrect : ∀ r ∈ R, r.length = L) (hw : w.length = R.length) :
    0 ≤ quadForm w (cov_matrix R) := by
  rw [quadForm_cov_eq_sum R w hw]
  have hmem : ∀ i, i < R.length → R.getD i [] ∈ R := by
    intro i hi
    rw [getD_of_lt _ _ hi]
    exact R.get_mem i hi
  rcases Nat.eq_zero_or_pos L with hL0 | hL1
  · apply le_of_eq
    symm
    apply Finset.sum_eq_zero
    intro i hi
    apply Finset.sum_eq_zero
    intro j _
    have hiR := Finset.mem_range.mp hi
    have hnil : R.getD i [] = [] := by
      have := hrect _ (hmem i hiR)
      rw [hL0] at this
      exact List.length_eq_zero.mp this
    rw [hnil]
    have hz : sampleCov [] (R.getD j []) = 0 := by simp [sampleCov]
    rw [hz]
    ring
  · have hcast : (0 : ℚ) ≤ (L : ℚ) - 1 := by
      have h1 : (1 : ℚ) ≤ (L : ℚ) := by exact_mod_cast hL1
      linarith
    have key : ∀ i j, i < R.length → j < R.length →
        w.getD i 0 * (sampleCov (R.getD i []) (R.getD j []) * w.getD j 0) =
          (∑ t ∈ Finset.range L, wdm w R i t * wdm w R j t) / ((L : ℚ) - 1) := by
      intro i j hi hj
      have hli : (R.getD i []).length = L := hrect _ (hmem i hi)
      have hlj : (R.getD j []).length = L := hrect _ (hmem j hj)
      have hdi : (demean (R.getD i [])).length = L := by
        rw [demean, List.length_map]; exact hli
      have hdj : (demean (R.getD j [])).length = L := by
        rw [demean, List.length_map]; exact hlj
      have hsum : (∑ t ∈ Finset.range L, wdm w R i t * wdm w R j t) =
          w.getD i 0 * w.getD j 0 *
            dotList (demean (R.getD i [])) (demean (R.getD j [])) := by
        rw [dotList_eq_sum _ _ (by rw [hdi, hdj]), hdi, Finset.mul_sum]
        apply Finset.sum_congr rfl
        intro t _
        rw [wdm, wdm]
        ring
      rw [hsum, sampleCov_eq_dot, hli]
      ring
    have heq : (∑ i ∈ Finset.range R.length, ∑ j ∈ Finset.range R.length,
        w.getD i 0 * (sampleCov (R.getD i []) (R.getD j []) * w.getD j 0)) =
        (∑ t ∈ Finset.range L, (∑ i ∈ Finset.range R.length, wdm w R i t) *
          (∑ j ∈ Finset.range R.length, wdm w R j t)) / ((L : ℚ) - 1) := by
      calc (∑ i ∈ Finset.range R.length, ∑ j ∈ Finset.range R.length,
            w.getD i 0 * (sampleCov (R.getD i []) (R.getD j []) * w.getD j 0))
          = ∑ i ∈ Finset.range R.length, ∑ j ∈ Finset.range R.length,
              (∑ t ∈ Finset.range L, wdm w R i t * wdm w R j t) / ((L : ℚ) - 1) := by
            apply Finset.sum_congr rfl
            intro i hi
            apply Finset.sum_congr rfl
            intro j hj
            exact key i j (Finset.mem_range.mp hi) (Finset.mem_range.mp hj)
        _ = (∑ i ∈ Finset.range R.length, ∑ j ∈ Finset.range R.length,
              ∑ t ∈ Finset.range L, wdm w R i t * wdm w R j t) / ((L : ℚ) - 1) := by
            simp only [Finset.sum_div]
        _ = (∑ t ∈ Finset.range L, ∑ i ∈ Finset.range R.length,
              ∑ j ∈ Finset.range R.length, wdm w R i t * wdm w R j t) /
                ((L : ℚ) - 1) := by
            congr 1
            rw [show (∑ i ∈ Finset.range R.length, ∑ j ∈ Finset.range R.length,
                ∑ t ∈ Finset.range L, wdm w R i t * wdm w R j t) =
                  ∑ i ∈ Finset.range R.length, ∑ t ∈ Finset.range L,
                    ∑ j ∈ Finset.range R.length, wdm w R i t * wdm w R j t from
              Finset.sum_congr rfl fun i _ => Finset.sum_comm]
            exact Finset.sum_comm
        _ = (∑ t ∈ Finset.range L, (∑ i ∈ Finset.range R.length, wdm w R i t) *
              (∑ j ∈ Finset.range R.length, wdm w R j t)) / ((L : ℚ) - 1) := by
            congr 1
            apply Finset.sum_congr rfl
            intro t _
            rw [Finset.sum_mul_sum]
    rw [heq]
    apply div_nonneg _ hcast
    apply Finset.sum_nonneg
    intro t _
    exact mul_self_nonneg _

/-- Claim C3: for a rectangular return table and a weights vector of
matching length, `aggregate` returns as portfolio mean the dot product
`∑ᵢ mean(rᵢ)·wᵢ` of the per-asset mean-return vector with the weights,
and as portfolio standard deviation the square root of the quadratic
form `∑ᵢ∑ⱼ wᵢ·Σᵢⱼ·wⱼ` over the sample covariance matrix `Σ`. -/
theorem aggregate_mean_and_stdev (R : List (List ℚ)) (w : List ℚ) (L : ℕ)
    (hrect : ∀ r ∈ R, r.length = L) (hw : w.length = R.length) :
    (aggregate R w).1 =
        (∑ i ∈ Finset.range R.length, mean (R.getD i []) * w.getD i 0) ∧
      (aggregate R w).2 = some (Real.sqrt ((∑ i ∈ Finset.range R.length,
        ∑ j ∈ Finset.range R.length,
          w.getD i 0 * (sampleCov (R.getD i []) (R.getD j []) * w.getD j 0) : ℚ) : ℝ)) := by
  have hml : (mean_returns R).length = R.length := by
    rw [mean_returns, List.length_map]
  constructor
  · show port_mean R w = _
    rw [port_mean, dotList_eq_sum _ _ (by rw [hml, hw]), hml]
    apply Finset.sum_congr rfl
    intro i hi
    have hiR := Finset.mem_range.mp hi
    rw [mean_returns, getD_map_of_lt _ _ _ hiR []]
  · show port_stdev R w = _
    rw [port_stdev, port_stdev_of, npSqrt,
      if_neg (not_lt.mpr (quadForm_cov_nonneg R w L hrect hw)),
      quadForm_cov_eq_sum R w hw]

/-- Witness for C3 at the return table `[[1,2],[2,3]]` with weights
`[1,1]`. -/
theorem aggregate_mean_and_stdev_witness :
    (∀ r ∈ ([[1, 2], [2, 3]] : List (List ℚ)), r.length = 2) ∧
      (([1, 1] : List ℚ).length = ([[1, 2], [2, 3]] : List (List ℚ)).length) ∧
      ((aggregate [[1, 2], [2, 3]] [1, 1]).1 =
          (∑ i ∈ Finset.range ([[1, 2], [2, 3]] : List (List ℚ)).length,
            mean (([[1, 2], [2, 3]] : List (List ℚ)).getD i []) *
              ([1, 1] : List ℚ).getD i 0) ∧
        (aggregate [[1, 2], [2, 3]] [1, 1]).2 = some (Real.sqrt
          ((∑ i ∈ Finset.range ([[1, 2], [2, 3]] : List (List ℚ)).length,
            ∑ j ∈ Finset.range ([[1, 2], [2, 3]] : List (List ℚ)).length,
              ([1, 1] : List ℚ).getD i 0 *
                (sampleCov (([[1, 2], [2, 3]] : List (List ℚ)).getD i [])
                    (([[1, 2], [2, 3]] : List (List ℚ)).getD j []) *
                  ([1, 1] : List ℚ).getD j 0) : ℚ) : ℝ))) :=
  ⟨by decide, by decide,
    aggregate_mean_and_stdev [[1, 2], [2, 3]] [1, 1] 2 (by decide) (by decide)⟩

/-- Claim C9: on a rectangular N-asset return table with L observations
per asset, `cov_matrix` is N×N; entry (i,j) is the sample covariance of
assets i and j with denominator L−1 (the unbiased estimator over the
number of observations); the matrix is symmetric; and diagonal entry
(i,i) is asset i's sample return variance. -/
theorem cov_matrix_spec (R : List (List ℚ)) (L : ℕ)
    (hrect : ∀ r ∈ R, r.length = L) :
    (cov_matrix R).length = R.length ∧
      (∀ row ∈ cov_matrix R, row.length = R.length) ∧
      (∀ i j, i < R.length → j < R.length →
        ((cov_matrix R).getD i []).getD j 0 =
          (∑ t ∈ Finset.range L,
            ((R.getD i []).getD t 0 - mean (R.getD i [])) *
              ((R.getD j []).getD t 0 - mean (R.getD j []))) / ((L : ℚ) - 1)) ∧
      (∀ i j, i < R.length → j < R.length →
        ((cov_matrix R).getD i []).getD j 0 =
          ((cov_matrix R).getD j []).getD i 0) ∧
      (∀ i, i < R.length →
        ((cov_matrix R).getD i []).getD i 0 = sampleVar (R.getD i [])) := by
  have hmem : ∀ i, i < R.length → R.getD i [] ∈ R := by
    intro i hi
    rw [getD_of_lt _ _ hi]
    exact R.get_mem i hi
  have hentry : ∀ i j, i < R.length → j < R.length →
      ((cov_matrix R).getD i []).getD j 0 =
        sampleCov (R.getD i []) (R.getD j []) := by
    intro i j hi hj
    rw [cov_matrix, getD_map_of_lt _ _ _ hi [], getD_map_of_lt _ _ _ hj []]
  refine ⟨by rw [cov_matrix, List.length_map], ?_, ?_, ?_, ?_⟩
  · intro row hrow
    rw [cov_matrix] at hrow
    obtain ⟨x, _, rfl⟩ := List.mem_map.mp hrow
    rw [List.length_map]
  · intro i j hi hj
    rw [hentry i j hi hj]
    exact sampleCov_eq_sum _ _ L (hrect _ (hmem i hi)) (hrect _ (hmem j hj))
  · intro i j hi hj
    rw [hentry i j hi hj, hentry j i hj hi]
    exact sampleCov_comm _ _ (by rw [hrect _ (hmem i hi), hrect _ (hmem j hj)])
  · intro i hi
    rw [hentry i i hi hi]
    exact sampleCov_self _

/-- Witness for C9 at the return table `[[1,2]]`. -/
theorem cov_matrix_spec_witness :
    (∀ r ∈ ([[1, 2]] : List (List ℚ)), r.length = 2) ∧
      ((cov_matrix [[1, 2]]).length = ([[1, 2]] : List (List ℚ)).length ∧
        (∀ row ∈ cov_matrix [[1, 2]], row.length = ([[1, 2]] : List (List ℚ)).length) ∧
        (∀ i j, i < ([[1, 2]] : List (List ℚ)).length →
          j < ([[1, 2]] : List (List ℚ)).length →
          ((cov_matrix [[1, 2]]).getD i []).getD j 0 =
            (∑ t ∈ Finset.range 2,
              ((([[1, 2]] : List (List ℚ)).getD i []).getD t 0 -
                  mean (([[1, 2]] : List (List ℚ)).getD i [])) *
                ((([[1, 2]] : List (List ℚ)).getD j []).getD t 0 -
                  mean (([[1, 2]] : List (List ℚ)).getD j []))) / ((2 : ℚ) - 1)) ∧
        (∀ i j, i < ([[1, 2]] : List (List ℚ)).length →
          j < ([[1, 2]] : List (List ℚ)).length →
          ((cov_matrix [[1, 2]]).getD i []).getD j 0 =
            ((cov_matrix [[1, 2]]).getD j []).getD i 0) ∧
        (∀ i, i < ([[1, 2]] : List (List ℚ)).length →
          ((cov_matrix [[1, 2]]).getD i []).getD i 0 =
            sampleVar (([[1, 2]] : List (List ℚ)).getD i []))) :=
  ⟨by decide, cov_matrix_spec [[1, 2]] 2 (by decide)⟩

/-- Claim C6 amended: the code performs no clamping.  `np.sqrt` receives
the raw quadratic form and yields `NaN` (not 0) whenever that form is
negative.  What protects the pipeline instead is exact arithmetic: the
quadratic form of any weights vector over a sample covariance matrix
computed by `cov_matrix` from a rectangular return table is
non-negative (positive semi-definiteness), so within the pipeline the
square root never receives a negative argument. -/
theorem npSqrt_no_clamp_and_cov_psd (w : List ℚ) (M : List (List ℚ))
    (R : List (List ℚ)) (L : ℕ)
    (hrect : ∀ r ∈ R, r.length = L) (hw : w.length = R.length) :
    (quadForm w M < 0 → port_stdev_of w M = none) ∧
      0 ≤ quadForm w (cov_matrix R) := by
  constructor
  · intro hneg
    rw [port_stdev_of, npSqrt, if_pos hneg]
  · exact quadForm_cov_nonneg R w L hrect hw

/-- Witness for the amended C6 at weights `[1]`, matrix `[[-1]]`, return
table `[[0, 1]]`. -/
theorem npSqrt_no_clamp_and_cov_psd_witness :
    (∀ r ∈ ([[0, 1]] : List (List ℚ)), r.length = 2) ∧
      (([1] : List ℚ).length = ([[0, 1]] : List (List ℚ)).length) ∧
      ((quadForm [1] [[-1]] < 0 → port_stdev_of [1] [[-1]] = none) ∧
        0 ≤ quadForm [1] (cov_matrix [[0, 1]])) :=
  ⟨by decide, by decide,
    npSqrt_no_clamp_and_cov_psd [1] [[-1]] [[0, 1]] 2 (by decide) (by decide)⟩

/-! Relating the `NaN`-keeping representation the code actually uses to
the dropped representation of the spec. -/

theorem pct_change_eq_cons (ps : List ℚ) (hne : ps ≠ []) :
    pct_change ps = none :: (buildReturns ps).map some := by
  cases ps with
  | nil => exact absurd rfl hne
  | cons p rest => rw [buildReturns_eq_raw]; rfl

theorem nanMean_pct_change (ps : List ℚ) :
    nanMean (pct_change ps) = mean (buildReturns ps) := rfl

theorem filterMap_bothSome_map (l : List (ℚ × ℚ)) :
    (l.map (Prod.map some some)).filterMap bothSome = l := by
  induction l with
  | nil => rfl
  | cons x t ih =>
    cases x with
    | mk a b => simp [List.filterMap_cons, bothSome, ih, Prod.map]

theorem dropna2_pct_change (ps qs : List ℚ) (hne1 : ps ≠ []) (hne2 : qs ≠ []) :
    dropna2 (pct_change ps) (pct_change qs) =
      List.zip (buildReturns ps) (buildReturns qs) := by
  rw [dropna2, pct_change_eq_cons ps hne1, pct_change_eq_cons qs hne2,
    List.zip_cons_cons, List.filterMap_cons]
  have hhead : bothSome ((none : Option ℚ), (none : Option ℚ)) = none := rfl
  rw [hhead, List.zip_map, filterMap_bothSome_map]

theorem nanCov_pct_change (ps qs : List ℚ) (hne1 : ps ≠ []) (hne2 : qs ≠ [])
    (hlen : (buildReturns ps).length = (buildReturns qs).length) :
    nanCov (pct_change ps) (pct_change qs) =
      sampleCov (buildReturns ps) (buildReturns qs) := by
  rw [nanCov, dropna2_pct_change ps qs hne1 hne2,
    List.map_fst_zip _ _ (le_of_eq hlen), List.map_snd_zip _ _ (le_of_eq hlen.symm)]

/-- Claim C10: on a price table of positive prices with columns of equal
length `L ≥ 2`, the `NaN`-keeping return representation the code uses
(`data.pct_change()`, first row `NaN`) produces exactly the same
per-asset means, covariance matrix, portfolio mean, and portfolio
standard deviation as the representation that drops the first
observation, because the pandas mean and covariance computations exclude
undefined cells. -/
theorem nan_representation_equiv (data : List (List ℚ)) (L : ℕ) (w : List ℚ)
    (hrect : ∀ ps ∈ data, ps.length = L) (h2 : 2 ≤ L)
    (hpos : ∀ ps ∈ data, ∀ p ∈ ps, 0 < p) :
    mean_returnsNaN (returnsNaN data) = mean_returns (returnTable data) ∧
      cov_matrixNaN (returnsNaN data) = cov_matrix (returnTable data) ∧
      port_meanNaN (returnsNaN data) w = port_mean (returnTable data) w ∧
      port_stdevNaN (returnsNaN data) w = port_stdev (returnTable data) w := by
  have hne : ∀ ps ∈ data, ps ≠ [] := by
    intro ps hps hnil
    have := hrect ps hps
    rw [hnil] at this
    simp at this
    omega
  have hblen : ∀ ps ∈ data, (buildReturns ps).length = L - 1 := by
    intro ps hps
    rw [buildReturns_eq_raw, rawReturns_length, hrect ps hps]
  have hmean : mean_returnsNaN (returnsNaN data) = mean_returns (returnTable data) := by
    rw [mean_returnsNaN, returnsNaN, mean_returns, returnTable,
      List.map_map, List.map_map]
    apply List.map_congr_left
    intro ps _
    exact nanMean_pct_change ps
  have hcov : cov_matrixNaN (returnsNaN data) = cov_matrix (returnTable data) := by
    rw [cov_matrixNaN, returnsNaN, cov_matrix, returnTable,
      List.map_map, List.map_map]
    apply List.map_congr_left
    intro ps hps
    simp only [Function.comp]
    rw [List.map_map, List.map_map]
    apply List.map_congr_left
    intro qs hqs
    simp only [Function.comp]
    exact nanCov_pct_change ps qs (hne ps hps) (hne qs hqs)
      (by rw [hblen ps hps, hblen qs hqs])
  refine ⟨hmean, hcov, ?_, ?_⟩
  · rw [port_meanNaN, port_mean, hmean]
  · rw [port_stdevNaN, port_stdev, port_stdev_of, hcov]

/-- Witness for C10 at the price table `[[1, 2], [2, 1]]` with weights
`[1, 0]`. -/
theorem nan_representation_equiv_witness :
    (∀ ps ∈ ([[1, 2], [2, 1]] : List (List ℚ)), ps.length = 2) ∧
      (2 : ℕ) ≤ 2 ∧
      (∀ ps ∈ ([[1, 2], [2, 1]] : List (List ℚ)), ∀ p ∈ ps, 0 < p) ∧
      (mean_returnsNaN (returnsNaN [[1, 2], [2, 1]]) =
          mean_returns (returnTable [[1, 2], [2, 1]]) ∧
        cov_matrixNaN (returnsNaN [[1, 2], [2, 1]]) =
          cov_matrix (returnTable [[1, 2], [2, 1]]) ∧
        port_meanNaN (returnsNaN [[1, 2], [2, 1]]) [1, 0] =
          port_mean (returnTable [[1, 2], [2, 1]]) [1, 0] ∧
        port_stdevNaN (returnsNaN [[1, 2], [2, 1]]) [1, 0] =
          port_stdev (returnTable [[1, 2], [2, 1]]) [1, 0]) :=
  ⟨by decide, by decide, by decide,
    nan_representation_equiv [[1, 2], [2, 1]] 2 [1, 0] (by decide) (by decide)
      (by decide)⟩
